import Mathlib

set_option maxHeartbeats 1000000

/-!
# Verification of the Bangalore rent optimizer (`src/app.py`)

Shallow embedding of the single-script Streamlit application.  All prices,
scores, distances and weights are modelled as exact rationals (`ℚ`); the
program's float arithmetic is rounding-free for every property treated here
except the transit-distance-zero edge case, for which a separate IEEE-style
value type (`PVal`) with signed infinities and NaN is used.

The numpy global random generator is modelled abstractly as a deterministic
state machine `RState`: `np.random.seed n` is a pure function of `n`, and each
draw is a pure function of the current state that also advances it.  The
output ranges mirror numpy exactly — `np.random.uniform lo hi ∈ [lo, hi)` and
`np.random.randint lo hi ∈ [lo, hi)` (exclusive upper bound) — which is all
the claims below depend on; the actual MT19937 stream is irrelevant to them.
-/

/-- Abstract state of numpy's global pseudo-random generator. -/
structure RState where
  val : Nat
deriving DecidableEq

/-- Advance the generator by one draw (a simple LCG standing in for MT19937;
only determinism and output ranges matter to the claims). -/
def RState.next (s : RState) : RState :=
  ⟨(1103515245 * s.val + 12345) % 4294967296⟩

/-- `np.random.seed n`: seeding is a pure function of the seed value. -/
def np_seed (n : Nat) : RState := ⟨n⟩

/-- Resolution of the fractional part of a uniform draw (2^53, the resolution
of numpy's `random_sample`). -/
def rngDen : Nat := 9007199254740992

/-- `np.random.uniform lo hi`: `lo + (hi - lo) * u` with `u ∈ [0, 1)`. -/
def np_uniform (lo hi : ℚ) (s : RState) : ℚ × RState :=
  (lo + (hi - lo) * (((s.val % rngDen : Nat) : ℚ) / (rngDen : ℚ)), s.next)

/-- `np.random.randint lo hi`: uniform integer in `[lo, hi)` — the upper
bound is exclusive, exactly as in numpy. -/
def np_randint (lo hi : ℤ) (s : RState) : ℤ × RState :=
  (lo + ((s.val % (hi - lo).toNat : Nat) : ℤ), s.next)

/-- Vectorized `np.random.uniform(lo, hi, size=n)`: `n` successive draws. -/
def np_uniformN (lo hi : ℚ) : Nat → RState → List ℚ × RState
  | 0, s => ([], s)
  | n + 1, s =>
      ((np_uniform lo hi s).1 :: (np_uniformN lo hi n (np_uniform lo hi s).2).1,
       (np_uniformN lo hi n (np_uniform lo hi s).2).2)

/-- Vectorized `np.random.randint(lo, hi, size=n)`: `n` successive draws. -/
def np_randintN (lo hi : ℤ) : Nat → RState → List ℤ × RState
  | 0, s => ([], s)
  | n + 1, s =>
      ((np_randint lo hi s).1 :: (np_randintN lo hi n (np_randint lo hi s).2).1,
       (np_randintN lo hi n (np_randint lo hi s).2).2)

/-- One row of the input CSV, restricted to the columns the script touches. -/
structure RawRow where
  postedOn : String
  bhk : Nat
  rent : ℚ
  size : Nat
  areaLocality : String
  city : String
  furnishing : String
deriving DecidableEq

/-- The fixed locale coordinate table `loc_map` of `load_data`
(`src/app.py` lines 23-38), in Python dict insertion order. -/
def loc_map : List (String × ℚ × ℚ) :=
  [("Koramangala", 12.9345, 77.6186),
   ("HSR Layout", 12.9121, 77.6446),
   ("Whitefield", 12.9698, 77.7500),
   ("Indiranagar", 12.9784, 77.6408),
   ("Jayanagar", 12.9304, 77.5855),
   ("Marathahalli", 12.9591, 77.6974),
   ("Electronic City", 12.8399, 77.6770),
   ("BTM Layout", 12.9166, 77.6101),
   ("Hebbal", 13.0354, 77.5988),
   ("Yelahanka", 13.1007, 77.5963),
   ("Bellandur", 12.9260, 77.6762),
   ("Sarjapur", 12.9237, 77.6546),
   ("Basavanagudi", 12.9438, 77.5755),
   ("Malleswaram", 13.0031, 77.5643)]

/-- Python `str.lower()` on the character list of a string (the keys and
area texts in this program are ASCII, where `Char.toLower` agrees). -/
def lowerStr (s : String) : List Char :=
  s.toList.map Char.toLower

/-- Python's substring containment `needle in haystack` on char lists. -/
def containsSub (needle : List Char) : List Char → Bool
  | [] => needle.isEmpty
  | c :: t => needle.isPrefixOf (c :: t) || containsSub needle t

/-- The test `key.lower() in str(area_text).lower()` of `get_coords`
(`src/app.py` line 43). -/
def containsCI (key area : String) : Bool :=
  containsSub (lowerStr key) (lowerStr area)

/-- First entry of `loc_map` whose key occurs (case-insensitively) in the
area text; `none` models the `np.nan, np.nan` fall-through of `get_coords`. -/
def lookupLoc (area : String) : Option (ℚ × ℚ) :=
  (loc_map.find? (fun kv => containsCI kv.1 area)).map (fun kv => kv.2)

/-- `get_coords` (`src/app.py` lines 41-47): first matching table entry plus
independent jitter `np.random.uniform(-0.01, 0.01)` on each axis; two draws
are consumed on a match, none otherwise. -/
def get_coords (area : String) (s : RState) : Option (ℚ × ℚ) × RState :=
  match lookupLoc area with
  | some c =>
      (some (c.1 + (np_uniform (-0.01) 0.01 s).1,
             c.2 + (np_uniform (-0.01) 0.01 (np_uniform (-0.01) 0.01 s).2).1),
       (np_uniform (-0.01) 0.01 (np_uniform (-0.01) 0.01 s).2).2)
  | none => (none, s)

/-- A row that survived coordinate resolution (`df.dropna(subset=['lat'])`). -/
structure GeoRow where
  raw : RawRow
  lat : ℚ
  lon : ℚ
deriving DecidableEq

/-- Coordinate assignment plus `dropna`: apply `get_coords` to every row in
order (threading the generator state) and keep exactly the resolved rows
(`src/app.py` lines 50-53). -/
def assignCoords : List RawRow → RState → List GeoRow × RState
  | [], s => ([], s)
  | r :: rs, s =>
      match (get_coords r.areaLocality s).1 with
      | some c =>
          (⟨r, c.1, c.2⟩ :: (assignCoords rs (get_coords r.areaLocality s).2).1,
           (assignCoords rs (get_coords r.areaLocality s).2).2)
      | none => assignCoords rs (get_coords r.areaLocality s).2

/-- A fully enriched row: coordinates plus the three simulated lifestyle
fields `Cafes`, `Safety_Score`, `Metro_Dist_KM`. -/
structure EnrichedRow where
  raw : RawRow
  lat : ℚ
  lon : ℚ
  cafes : ℚ
  safety : ℚ
  metro : ℚ
deriving DecidableEq

/-- Attach the three pre-drawn simulated columns to the geo-resolved rows
(`src/app.py` lines 59-62): `Cafes = Rent / 1500 + offset`, `Safety_Score`
and `Metro_Dist_KM` taken positionally from their vectorized draws. -/
def attachSim : List GeoRow → List ℤ → List ℚ → List ℚ → List EnrichedRow
  | g :: gs, o :: os, sa :: sas, m :: ms =>
      ⟨g.raw, g.lat, g.lon, g.raw.rent / 1500 + (o : ℚ), sa, m⟩ ::
        attachSim gs os sas ms
  | _, _, _, _ => []

/-- The enrichment engine on the locale-filtered rows: coordinate resolution
with jitter drawn from the ambient generator state `g`, then
`np.random.seed(42)` and the three vectorized simulated columns
(`src/app.py` lines 40-64). -/
def enrichEngine (rows : List RawRow) (g : RState) : List EnrichedRow :=
  attachSim (assignCoords rows g).1
    (np_randintN 5 30 (assignCoords rows g).1.length (np_seed 42)).1
    (np_uniformN 6.5 9.8 (assignCoords rows g).1.length
      (np_randintN 5 30 (assignCoords rows g).1.length (np_seed 42)).2).1
    (np_uniformN 0.5 10.0 (assignCoords rows g).1.length
      (np_uniformN 6.5 9.8 (assignCoords rows g).1.length
        (np_randintN 5 30 (assignCoords rows g).1.length (np_seed 42)).2).2).1

/-- `load_data` (`src/app.py` lines 7-64): `none` models the absent CSV file
(`FileNotFoundError`), in which case the error message is shown (`Bool` flag)
and an empty frame is returned; otherwise the rows are filtered to
`City == 'Bangalore'` and enriched. -/
def load_data (file : Option (List RawRow)) (g : RState) :
    List EnrichedRow × Bool :=
  match file with
  | none => ([], true)
  | some df => (enrichEngine (df.filter (fun r => r.city == "Bangalore")) g, false)

/-- The preference filter
`df[(df['Rent'] <= budget) & (df['Safety_Score'] >= min_safety)]`
(`src/app.py` line 89). -/
def filterStage (rows : List EnrichedRow) (budget min_safety : ℚ) :
    List EnrichedRow :=
  rows.filter (fun e => decide (e.raw.rent ≤ budget) && decide (min_safety ≤ e.safety))

/-- The value-score formula of `src/app.py` lines 93-96. -/
def Value_Score (cafes metro rent w_cafe w_metro : ℚ) : ℚ :=
  (cafes * w_cafe + 1 / metro * 100 * w_metro) / (rent / 1000)

/-- A filtered row together with its computed `Value_Score` column. -/
structure ScoredRow where
  row : EnrichedRow
  score : ℚ
deriving DecidableEq

/-- Computation of the `Value_Score` column over the filtered frame. -/
def scoreStage (rows : List EnrichedRow) (w_cafe w_metro : ℚ) : List ScoredRow :=
  rows.map (fun e => ⟨e, Value_Score e.cafes e.metro e.raw.rent w_cafe w_metro⟩)

/-- Stable insertion of a row into an ascending-by-score list, placing it
before the first element of score at least its own (numpy's insertion sort
moves an element left only past strictly greater values, so equal keys keep
their original relative order). -/
def insertAsc (x : ScoredRow) : List ScoredRow → List ScoredRow
  | [] => [x]
  | y :: ys => if x.score ≤ y.score then x :: y :: ys else y :: insertAsc x ys

/-- Stable ascending insertion sort by score: numpy's `argsort` runs plain
insertion sort on arrays below the introsort partition threshold
(fewer than 17 elements). -/
def insortAsc : List ScoredRow → List ScoredRow
  | [] => []
  | x :: xs => insertAsc x (insortAsc xs)

/-- `filtered_df.sort_values(by='Value_Score', ascending=False)`
(`src/app.py` line 99).  Pandas' `nargsort` implements descending order by
reversing the values array FIRST, taking the ascending argsort of the
reversed values, and then reversing the resulting indexer (a double reversal,
deliberately arranged so that a stable underlying argsort yields a stable
descending sort); in list form that is reverse, stable ascending sort,
reverse again.  The underlying argsort is modelled by the stable `insortAsc`,
which is exact in numpy's insertion-sort regime — frames of at most 16 rows,
where the default `kind='quicksort'` runs plain insertion sort; for longer
frames the introsort partition stage is not modelled here and numpy gives no
tie-order guarantee for it. -/
def sortStage (rows : List ScoredRow) : List ScoredRow :=
  (insortAsc rows.reverse).reverse

/-- The user-visible render calls of the script, in program order. -/
inductive UIEvent where
  | errorMissingFile
  | pageConfig
  | title
  | markdownIntro
  | sidebar
  | metricTop
  | scatterChart
  | mapChart
  | detailTable
  | errorNoResults
deriving DecidableEq

/-- Observable outcome of one run of the script: the rendered UI events, in
order, whether the preference filter (line 89) and the value scorer
(lines 93-96) executed, whether `st.stop()` was reached, and the final
scored frame. -/
structure AppResult where
  events : List UIEvent
  filterInvoked : Bool
  scoreInvoked : Bool
  stopped : Bool
  scored : List ScoredRow
deriving DecidableEq

/-- The whole script (`src/app.py` lines 66-144): load, static page chrome,
`st.stop()` on an empty frame, sidebar inputs, filter, and — only on a
non-empty filtered frame — scoring, sorting and the data widgets. -/
def runApp (file : Option (List RawRow)) (g : RState)
    (budget min_safety w_cafe w_metro : ℚ) : AppResult :=
  match load_data file g with
  | (df, errShown) =>
    match (if errShown then [UIEvent.errorMissingFile] else []) ++
        [UIEvent.pageConfig, UIEvent.title, UIEvent.markdownIntro] with
    | evts =>
      if df.isEmpty then
        ⟨evts, false, false, true, []⟩
      else
        match filterStage df budget min_safety with
        | fd =>
          if fd.isEmpty then
            ⟨evts ++ [UIEvent.sidebar, UIEvent.errorNoResults], true, false, false, []⟩
          else
            ⟨evts ++ [UIEvent.sidebar, UIEvent.metricTop, UIEvent.scatterChart,
                UIEvent.mapChart, UIEvent.detailTable],
             true, true, false, sortStage (scoreStage fd w_cafe w_metro)⟩

/-- An IEEE-754 binary64 value, modelled exactly: a finite value is an exact
rational (rounding is elided — the claims settled over `PVal` are
rounding-independent), plus the two infinities and NaN; the signed zeros are
conflated with `0`. -/
inductive PVal where
  | fin (q : ℚ)
  | pinf
  | ninf
  | nan
deriving DecidableEq

/-- Whether a float value is an ordinary finite number. -/
def PVal.isFinite : PVal → Bool
  | fin _ => true
  | _ => false

/-- IEEE addition on `PVal`. -/
def PVal.add : PVal → PVal → PVal
  | nan, _ => nan
  | _, nan => nan
  | fin a, fin b => fin (a + b)
  | fin _, pinf => pinf
  | pinf, fin _ => pinf
  | fin _, ninf => ninf
  | ninf, fin _ => ninf
  | pinf, pinf => pinf
  | ninf, ninf => ninf
  | pinf, ninf => nan
  | ninf, pinf => nan

/-- IEEE multiplication on `PVal`. -/
def PVal.mul : PVal → PVal → PVal
  | nan, _ => nan
  | _, nan => nan
  | fin a, fin b => fin (a * b)
  | fin a, pinf => if 0 < a then pinf else if a < 0 then ninf else nan
  | pinf, fin a => if 0 < a then pinf else if a < 0 then ninf else nan
  | fin a, ninf => if 0 < a then ninf else if a < 0 then pinf else nan
  | ninf, fin a => if 0 < a then ninf else if a < 0 then pinf else nan
  | pinf, pinf => pinf
  | pinf, ninf => ninf
  | ninf, pinf => ninf
  | ninf, ninf => pinf

/-- IEEE division on `PVal`: in particular a positive finite value divided by
zero is `+∞` (numpy emits a warning but yields `inf`), and `0 / 0` is NaN. -/
def PVal.div : PVal → PVal → PVal
  | nan, _ => nan
  | _, nan => nan
  | fin a, fin b =>
      if b = 0 then (if 0 < a then pinf else if a < 0 then ninf else nan)
      else fin (a / b)
  | fin _, pinf => fin 0
  | fin _, ninf => fin 0
  | pinf, fin b => if 0 ≤ b then pinf else ninf
  | ninf, fin b => if 0 ≤ b then ninf else pinf
  | pinf, pinf => nan
  | pinf, ninf => nan
  | ninf, pinf => nan
  | ninf, ninf => nan

/-- The value-score formula evaluated in float semantics, exactly as the
pandas expression of `src/app.py` lines 93-96 associates it. -/
def valueScoreF (cafes metro rent w_cafe w_metro : PVal) : PVal :=
  ((cafes.mul w_cafe).add
    ((((PVal.fin 1).div metro).mul (PVal.fin 100)).mul w_metro)).div
    (rent.div (PVal.fin 1000))

lemma rngDen_pos : 0 < rngDen := by norm_num [rngDen]

lemma np_uniform_bounds (lo hi : ℚ) (h : lo < hi) (s : RState) :
    lo ≤ (np_uniform lo hi s).1 ∧ (np_uniform lo hi s).1 < hi := by
  have hmlt : ((s.val % rngDen : Nat) : ℚ) < (rngDen : ℚ) := by
    exact_mod_cast Nat.mod_lt _ rngDen_pos
  have hD : (0 : ℚ) < (rngDen : ℚ) := by exact_mod_cast rngDen_pos
  have hu0 : (0 : ℚ) ≤ ((s.val % rngDen : Nat) : ℚ) / (rngDen : ℚ) := by positivity
  have hu1 : ((s.val % rngDen : Nat) : ℚ) / (rngDen : ℚ) < 1 :=
    (div_lt_one hD).mpr hmlt
  constructor
  · simp only [np_uniform]
    nlinarith
  · simp only [np_uniform]
    nlinarith

lemma np_randint_bounds (lo hi : ℤ) (h : lo < hi) (s : RState) :
    lo ≤ (np_randint lo hi s).1 ∧ (np_randint lo hi s).1 < hi := by
  have hpos : 0 < (hi - lo).toNat := by omega
  have hlt : s.val % (hi - lo).toNat < (hi - lo).toNat := Nat.mod_lt _ hpos
  simp only [np_randint]
  omega

lemma np_uniformN_length (lo hi : ℚ) :
    ∀ (n : Nat) (s : RState), (np_uniformN lo hi n s).1.length = n := by
  intro n
  induction n with
  | zero => intro s; simp [np_uniformN]
  | succ n ih => intro s; simp [np_uniformN, ih]

lemma np_randintN_length (lo hi : ℤ) :
    ∀ (n : Nat) (s : RState), (np_randintN lo hi n s).1.length = n := by
  intro n
  induction n with
  | zero => intro s; simp [np_randintN]
  | succ n ih => intro s; simp [np_randintN, ih]

lemma np_uniformN_mem (lo hi : ℚ) (h : lo < hi) :
    ∀ (n : Nat) (s : RState) (x : ℚ), x ∈ (np_uniformN lo hi n s).1 →
      lo ≤ x ∧ x < hi := by
  intro n
  induction n with
  | zero => intro s x hx; simp [np_uniformN] at hx
  | succ n ih =>
      intro s x hx
      simp only [np_uniformN, List.mem_cons] at hx
      rcases hx with hx | hx
      · subst hx; exact np_uniform_bounds lo hi h s
      · exact ih _ x hx

lemma np_randintN_mem (lo hi : ℤ) (h : lo < hi) :
    ∀ (n : Nat) (s : RState) (x : ℤ), x ∈ (np_randintN lo hi n s).1 →
      lo ≤ x ∧ x < hi := by
  intro n
  induction n with
  | zero => intro s x hx; simp [np_randintN] at hx
  | succ n ih =>
      intro s x hx
      simp only [np_randintN, List.mem_cons] at hx
      rcases hx with hx | hx
      · subst hx; exact np_randint_bounds lo hi h s
      · exact ih _ x hx

lemma assignCoords_raw_map :
    ∀ (rows : List RawRow) (g : RState),
      ((assignCoords rows g).1).map GeoRow.raw =
        rows.filter (fun r => (lookupLoc r.areaLocality).isSome) := by
  intro rows
  induction rows with
  | nil => intro g; simp [assignCoords]
  | cons r rs ih =>
      intro g
      cases hl : lookupLoc r.areaLocality with
      | some c =>
          simp [assignCoords, get_coords, hl, List.filter_cons, ih]
      | none =>
          simp [assignCoords, get_coords, hl, List.filter_cons, ih]

lemma assignCoords_mem_of_some :
    ∀ (rows : List RawRow) (g : RState) (r : RawRow) (la lo : ℚ),
      r ∈ rows → lookupLoc r.areaLocality = some (la, lo) →
      ∃ e ∈ (assignCoords rows g).1, e.raw = r ∧
        ∃ j1 j2 : ℚ, |j1| ≤ 1 / 100 ∧ |j2| ≤ 1 / 100 ∧
          e.lat = la + j1 ∧ e.lon = lo + j2 := by
  intro rows
  induction rows with
  | nil => intro g r la lo hr; simp at hr
  | cons hd rs ih =>
      intro g r la lo hr hl
      rcases List.mem_cons.mp hr with rfl | hr'
      · refine ⟨⟨r, la + (np_uniform (-0.01) 0.01 g).1,
            lo + (np_uniform (-0.01) 0.01
              (np_uniform (-0.01) 0.01 g).2).1⟩, ?_, rfl, ?_⟩
        · simp [assignCoords, get_coords, hl]
        · have h1 := np_uniform_bounds (-0.01) 0.01 (by norm_num) g
          have h2 := np_uniform_bounds (-0.01) 0.01 (by norm_num)
            (np_uniform (-0.01) 0.01 g).2
          refine ⟨_, _, ?_, ?_, rfl, rfl⟩
          · rw [abs_le]; constructor <;> [linarith [h1.1]; linarith [h1.2]]
          · rw [abs_le]; constructor <;> [linarith [h2.1]; linarith [h2.2]]
      · cases hhd : lookupLoc hd.areaLocality with
        | some c =>
            obtain ⟨e, he, hprop⟩ :=
              ih (get_coords hd.areaLocality g).2 r la lo hr' hl
            simp only [get_coords, hhd] at he
            refine ⟨e, ?_, hprop⟩
            simp only [assignCoords, get_coords, hhd, List.mem_cons]
            exact Or.inr he
        | none =>
            obtain ⟨e, he, hprop⟩ :=
              ih (get_coords hd.areaLocality g).2 r la lo hr' hl
            simp only [get_coords, hhd] at he
            refine ⟨e, ?_, hprop⟩
            simp only [assignCoords, get_coords, hhd]
            exact he

lemma assignCoords_absent :
    ∀ (rows : List RawRow) (g : RState) (r : RawRow),
      lookupLoc r.areaLocality = none →
      ∀ e ∈ (assignCoords rows g).1, e.raw ≠ r := by
  intro rows
  induction rows with
  | nil => intro g r _ e he; simp [assignCoords] at he
  | cons hd rs ih =>
      intro g r hl e he
      cases hhd : lookupLoc hd.areaLocality with
      | some c =>
          simp only [assignCoords, get_coords, hhd] at he
          rcases List.mem_cons.mp he with rfl | he'
          · intro hraw
            rw [show (⟨hd, _, _⟩ : GeoRow).raw = hd from rfl] at hraw
            rw [hraw] at hhd
            rw [hl] at hhd
            exact Option.noConfusion hhd
          · exact ih _ r hl e he'
      | none =>
          simp only [assignCoords, get_coords, hhd] at he
          exact ih _ r hl e he

lemma attachSim_mem_elim :
    ∀ (gs : List GeoRow) (os : List ℤ) (sas ms : List ℚ) (e : EnrichedRow),
      e ∈ attachSim gs os sas ms →
      (∃ g ∈ gs, e.raw = g.raw ∧ e.lat = g.lat ∧ e.lon = g.lon) ∧
      (∃ o ∈ os, e.cafes = e.raw.rent / 1500 + (o : ℚ)) ∧
      e.safety ∈ sas ∧ e.metro ∈ ms := by
  intro gs
  induction gs with
  | nil => intro os sas ms e he; simp [attachSim] at he
  | cons g gs ih =>
      intro os sas ms e he
      match os, sas, ms with
      | [], _, _ => simp [attachSim] at he
      | _ :: _, [], _ => simp [attachSim] at he
      | _ :: _, _ :: _, [] => simp [attachSim] at he
      | o :: os, sa :: sas, m :: ms =>
          rcases List.mem_cons.mp he with rfl | he'
          · exact ⟨⟨g, List.mem_cons_self _ _, rfl, rfl, rfl⟩,
              ⟨o, List.mem_cons_self _ _, rfl⟩,
              List.mem_cons_self _ _, List.mem_cons_self _ _⟩
          · obtain ⟨⟨g', hg', hr⟩, ⟨o', ho', hc⟩, hs, hm⟩ := ih os sas ms e he'
            exact ⟨⟨g', List.mem_cons_of_mem _ hg', hr⟩,
              ⟨o', List.mem_cons_of_mem _ ho', hc⟩,
              List.mem_cons_of_mem _ hs, List.mem_cons_of_mem _ hm⟩

lemma attachSim_mem_intro :
    ∀ (gs : List GeoRow) (os : List ℤ) (sas ms : List ℚ) (g : GeoRow),
      g ∈ gs → gs.length ≤ os.length → gs.length ≤ sas.length →
      gs.length ≤ ms.length →
      ∃ e ∈ attachSim gs os sas ms,
        e.raw = g.raw ∧ e.lat = g.lat ∧ e.lon = g.lon := by
  intro gs
  induction gs with
  | nil => intro os sas ms g hg; simp at hg
  | cons g0 gs ih =>
      intro os sas ms g hg ho hs hm
      match os, sas, ms with
      | [], _, _ => simp at ho
      | _ :: _, [], _ => simp at hs
      | _ :: _, _ :: _, [] => simp at hm
      | o :: os, sa :: sas, m :: ms =>
          rcases List.mem_cons.mp hg with rfl | hg'
          · exact ⟨⟨g.raw, g.lat, g.lon, g.raw.rent / 1500 + (o : ℚ), sa, m⟩,
              List.mem_cons_self _ _, rfl, rfl, rfl⟩
          · simp only [List.length_cons, Nat.add_le_add_iff_right] at ho hs hm
            obtain ⟨e, he, hprop⟩ := ih os sas ms g hg' ho hs hm
            exact ⟨e, List.mem_cons_of_mem _ he, hprop⟩

/-- The reproducible projection of an enriched row: everything except the
jittered coordinates. -/
def simProj (e : EnrichedRow) : RawRow × ℚ × ℚ × ℚ :=
  (e.raw, e.cafes, e.safety, e.metro)

/-- Reference zip of a raw-row list with the three simulated columns. -/
def simZip : List RawRow → List ℤ → List ℚ → List ℚ →
    List (RawRow × ℚ × ℚ × ℚ)
  | r :: rs, o :: os, sa :: sas, m :: ms =>
      (r, r.rent / 1500 + (o : ℚ), sa, m) :: simZip rs os sas ms
  | _, _, _, _ => []

lemma attachSim_simProj :
    ∀ (gs : List GeoRow) (os : List ℤ) (sas ms : List ℚ),
      (attachSim gs os sas ms).map simProj =
        simZip (gs.map GeoRow.raw) os sas ms := by
  intro gs
  induction gs with
  | nil =>
      intro os sas ms
      match os, sas, ms with
      | [], _, _ => simp [attachSim, simZip]
      | _ :: _, [], _ => simp [attachSim, simZip]
      | _ :: _, _ :: _, [] => simp [attachSim, simZip]
      | _ :: _, _ :: _, _ :: _ => simp [attachSim, simZip]
  | cons g gs ih =>
      intro os sas ms
      match os, sas, ms with
      | [], _, _ => simp [attachSim, simZip]
      | _ :: _, [], _ => simp [attachSim, simZip]
      | _ :: _, _ :: _, [] => simp [attachSim, simZip]
      | o :: os, sa :: sas, m :: ms =>
          simp [attachSim, simZip, simProj, List.map_cons, ih]

lemma enrichEngine_simProj_eq (rows : List RawRow) (g1 g2 : RState) :
    (enrichEngine rows g1).map simProj = (enrichEngine rows g2).map simProj := by
  have h1 := assignCoords_raw_map rows g1
  have h2 := assignCoords_raw_map rows g2
  have hl1 : (assignCoords rows g1).1.length =
      (rows.filter (fun r => (lookupLoc r.areaLocality).isSome)).length := by
    rw [← List.length_map (assignCoords rows g1).1 GeoRow.raw, h1]
  have hl2 : (assignCoords rows g2).1.length =
      (rows.filter (fun r => (lookupLoc r.areaLocality).isSome)).length := by
    rw [← List.length_map (assignCoords rows g2).1 GeoRow.raw, h2]
  unfold enrichEngine
  rw [attachSim_simProj, attachSim_simProj, h1, h2, hl1, hl2]

lemma enrichEngine_mem_bounds (rows : List RawRow) (g : RState)
    (e : EnrichedRow) (he : e ∈ enrichEngine rows g) :
    (∃ o : ℤ, 5 ≤ o ∧ o ≤ 29 ∧ e.cafes = e.raw.rent / 1500 + (o : ℚ)) ∧
    (6.5 ≤ e.safety ∧ e.safety < 9.8) ∧
    (0.5 ≤ e.metro ∧ e.metro < 10.0) := by
  unfold enrichEngine at he
  obtain ⟨-, ⟨o, ho, hc⟩, hs, hm⟩ := attachSim_mem_elim _ _ _ _ e he
  have hob := np_randintN_mem 5 30 (by norm_num) _ _ o ho
  have hsb := np_uniformN_mem 6.5 9.8 (by norm_num) _ _ _ hs
  have hmb := np_uniformN_mem 0.5 10.0 (by norm_num) _ _ _ hm
  exact ⟨⟨o, hob.1, by omega, hc⟩, hsb, hmb⟩

lemma enrichEngine_mem_of_geo (rows : List RawRow) (g : RState)
    (r : RawRow) (la lo : ℚ) (hr : r ∈ rows)
    (hl : lookupLoc r.areaLocality = some (la, lo)) :
    ∃ e ∈ enrichEngine rows g, e.raw = r ∧
      ∃ j1 j2 : ℚ, |j1| ≤ 1 / 100 ∧ |j2| ≤ 1 / 100 ∧
        e.lat = la + j1 ∧ e.lon = lo + j2 := by
  obtain ⟨ge, hge, hraw, j1, j2, hj1, hj2, hla, hlo⟩ :=
    assignCoords_mem_of_some rows g r la lo hr hl
  unfold enrichEngine
  obtain ⟨e, he, her, hela, helo⟩ :=
    attachSim_mem_intro (assignCoords rows g).1
      (np_randintN 5 30 (assignCoords rows g).1.length (np_seed 42)).1
      (np_uniformN 6.5 9.8 (assignCoords rows g).1.length
        (np_randintN 5 30 (assignCoords rows g).1.length (np_seed 42)).2).1
      (np_uniformN 0.5 10.0 (assignCoords rows g).1.length
        (np_uniformN 6.5 9.8 (assignCoords rows g).1.length
          (np_randintN 5 30 (assignCoords rows g).1.length (np_seed 42)).2).2).1
      ge hge
      (by rw [np_randintN_length])
      (by rw [np_uniformN_length])
      (by rw [np_uniformN_length])
  exact ⟨e, he, by rw [her, hraw], j1, j2, hj1, hj2, by rw [hela, hla],
    by rw [helo, hlo]⟩

lemma enrichEngine_absent (rows : List RawRow) (g : RState) (r : RawRow)
    (hl : lookupLoc r.areaLocality = none) :
    ∀ e ∈ enrichEngine rows g, e.raw ≠ r := by
  intro e he
  unfold enrichEngine at he
  obtain ⟨⟨ge, hge, hraw, -, -⟩, -, -, -⟩ := attachSim_mem_elim _ _ _ _ e he
  rw [hraw]
  exact assignCoords_absent rows g r hl ge hge

lemma mem_insertAsc (x b : ScoredRow) :
    ∀ l : List ScoredRow, b ∈ insertAsc x l ↔ b = x ∨ b ∈ l := by
  intro l
  induction l with
  | nil => simp [insertAsc]
  | cons y ys ih =>
      by_cases h : x.score ≤ y.score
      · simp [insertAsc, if_pos h, List.mem_cons]
      · simp only [insertAsc, if_neg h, List.mem_cons, ih]
        tauto

lemma insertAsc_pairwise (x : ScoredRow) :
    ∀ l : List ScoredRow, l.Pairwise (fun a b => a.score ≤ b.score) →
      (insertAsc x l).Pairwise (fun a b => a.score ≤ b.score) := by
  intro l
  induction l with
  | nil => intro _; simp [insertAsc]
  | cons y ys ih =>
      intro h
      rw [List.pairwise_cons] at h
      by_cases hxy : x.score ≤ y.score
      · simp only [insertAsc, if_pos hxy]
        refine List.Pairwise.cons ?_ (List.pairwise_cons.mpr h)
        intro b hb
        rcases List.mem_cons.mp hb with rfl | hb'
        · exact hxy
        · exact le_trans hxy (h.1 b hb')
      · simp only [insertAsc, if_neg hxy]
        refine List.Pairwise.cons ?_ (ih h.2)
        intro b hb
        rcases (mem_insertAsc x b ys).mp hb with rfl | hb'
        · exact le_of_not_le hxy
        · exact h.1 b hb'

lemma insortAsc_pairwise :
    ∀ l : List ScoredRow, (insortAsc l).Pairwise (fun a b => a.score ≤ b.score)
  | [] => by simp [insortAsc]
  | x :: xs => by
      simp only [insortAsc]
      exact insertAsc_pairwise x _ (insortAsc_pairwise xs)

lemma insertAsc_perm (x : ScoredRow) :
    ∀ l : List ScoredRow, (insertAsc x l).Perm (x :: l) := by
  intro l
  induction l with
  | nil => simp [insertAsc]
  | cons y ys ih =>
      by_cases h : x.score ≤ y.score
      · simp [insertAsc, h]
      · simp only [insertAsc, if_neg h]
        exact (ih.cons y).trans (List.Perm.swap x y ys)

lemma insortAsc_perm : ∀ l : List ScoredRow, (insortAsc l).Perm l
  | [] => by simp [insortAsc]
  | x :: xs => by
      simp only [insortAsc]
      exact (insertAsc_perm x (insortAsc xs)).trans ((insortAsc_perm xs).cons x)

lemma sortStage_perm (l : List ScoredRow) : (sortStage l).Perm l := by
  unfold sortStage
  exact ((List.reverse_perm _).trans (insortAsc_perm l.reverse)).trans
    (List.reverse_perm l)

lemma sortStage_sorted (l : List ScoredRow) :
    (sortStage l).Pairwise (fun a b => b.score ≤ a.score) := by
  unfold sortStage
  rw [List.pairwise_reverse]
  exact insortAsc_pairwise l.reverse

lemma insertAsc_filter (x : ScoredRow) (v : ℚ) :
    ∀ l : List ScoredRow,
      (insertAsc x l).filter (fun r => decide (r.score = v)) =
        if x.score = v then x :: l.filter (fun r => decide (r.score = v))
        else l.filter (fun r => decide (r.score = v)) := by
  intro l
  induction l with
  | nil => by_cases h : x.score = v <;> simp [insertAsc, h]
  | cons y ys ih =>
      by_cases hxy : x.score ≤ y.score
      · simp only [insertAsc, if_pos hxy]
        by_cases hx : x.score = v <;> by_cases hy : y.score = v <;>
          simp [List.filter_cons, hx, hy]
      · have hyx : y.score < x.score := lt_of_not_le hxy
        simp only [insertAsc, if_neg hxy]
        by_cases hx : x.score = v
        · have hy : ¬ y.score = v := fun h => absurd (hx.trans h.symm) (ne_of_gt hyx)
          simp [List.filter_cons, hx, hy, ih]
        · by_cases hy : y.score = v <;> simp [List.filter_cons, hx, hy, ih]

lemma insortAsc_filter (v : ℚ) :
    ∀ l : List ScoredRow,
      (insortAsc l).filter (fun r => decide (r.score = v)) =
        l.filter (fun r => decide (r.score = v))
  | [] => by simp [insortAsc]
  | x :: xs => by
      rw [insortAsc, insertAsc_filter, insortAsc_filter v xs]
      by_cases h : x.score = v <;> simp [List.filter_cons, h]

lemma sortStage_filter (l : List ScoredRow) (v : ℚ) :
    (sortStage l).filter (fun r => decide (r.score = v)) =
      l.filter (fun r => decide (r.score = v)) := by
  unfold sortStage
  rw [List.filter_reverse, insortAsc_filter, List.filter_reverse,
    List.reverse_reverse]

lemma lookupLoc_isSome_iff (area : String) :
    (∃ kv ∈ loc_map, containsCI kv.1 area = true) ↔
      (lookupLoc area).isSome = true := by
  simp [lookupLoc, List.find?_isSome]

lemma valueScoreF_fin (c d r wc wm : ℚ) (hd : d ≠ 0) (hr : r ≠ 0) :
    valueScoreF (.fin c) (.fin d) (.fin r) (.fin wc) (.fin wm) =
      .fin (Value_Score c d r wc wm) := by
  have hr1000 : ¬ (r / 1000 = 0) := by
    simp [div_eq_zero_iff, hr]
  simp [valueScoreF, PVal.mul, PVal.add, PVal.div, hd, hr1000, Value_Score]

/-- A concrete Bangalore listing whose area text matches the first
`loc_map` key, used to instantiate the universally quantified theorems. -/
def r0w : RawRow :=
  ⟨"2022-05-01", 2, 30000, 1100, "Koramangala Cross", "Bangalore",
   "Semi-Furnished"⟩

lemma lookupLoc_koramangala :
    lookupLoc "Koramangala Cross" = some (12.9345, 77.6186) := rfl

lemma lookupLoc_nomatch : lookupLoc "Majestic Area" = none := rfl

/-- A concrete enriched row matching the spec's end-to-end scenario:
price 30000, amenity density 20, transit distance 2.0. -/
def e1w : EnrichedRow := ⟨r0w, 12.93, 77.61, 20, 7, 2⟩

/-!
## The claims

Each claim of the specification is settled by exactly one theorem below.
-/

/-- C1 (confirmed).  Every record of the filtered set is scored exactly by
`value_score = (amenity_density * amenity_weight
+ (1 / transit_distance_km) * 100 * transit_weight) / (price / 1000)`, and in
particular amenity density 20, transit distance 2.0, price 30000 with weights
0.5 and 0.8 score `(20*0.5 + (1/2.0)*100*0.8) / (30000/1000) = 50/30`. -/
theorem c1_value_score_formula (df : List EnrichedRow)
    (budget min_safety w_cafe w_metro : ℚ) (e : EnrichedRow)
    (he : e ∈ filterStage df budget min_safety) :
    (⟨e, Value_Score e.cafes e.metro e.raw.rent w_cafe w_metro⟩ : ScoredRow) ∈
      scoreStage (filterStage df budget min_safety) w_cafe w_metro ∧
    Value_Score 20 2 30000 (1/2) (4/5) = 50/30 := by
  constructor
  · simpa [scoreStage] using List.mem_map_of_mem
      (fun e => (⟨e, Value_Score e.cafes e.metro e.raw.rent w_cafe w_metro⟩ :
        ScoredRow)) he
  · norm_num [Value_Score]

/-- Witness for C1: the spec's end-to-end row, rent 30000 under budget 35000
and safety 7 at threshold 7, is scored in the scored frame. -/
theorem c1_value_score_formula_witness :
    (⟨e1w, Value_Score e1w.cafes e1w.metro e1w.raw.rent (1/2) (4/5)⟩ :
        ScoredRow) ∈
      scoreStage (filterStage [e1w] 35000 7) (1/2) (4/5) ∧
    Value_Score 20 2 30000 (1/2) (4/5) = 50/30 :=
  c1_value_score_formula [e1w] 35000 7 (1/2) (4/5) e1w
    (by norm_num [filterStage, List.filter_cons, e1w, r0w])

/-- C2 (confirmed).  The preference filter is a pure subset operation: a
record is in the filtered result iff it is in the enriched set, its price is
at most the budget, and its safety score is at least the threshold. -/
theorem c2_filter_subset (rows : List EnrichedRow) (budget min_safety : ℚ)
    (e : EnrichedRow) :
    e ∈ filterStage rows budget min_safety ↔
      e ∈ rows ∧ e.raw.rent ≤ budget ∧ min_safety ≤ e.safety := by
  simp [filterStage, List.mem_filter, and_assoc]

/-!
On the sort stage (C3): within the modelled regime — frames of at most 16
rows, where numpy's default argsort is plain insertion sort and `sortStage`
is an exact embedding — the development lemmas `sortStage_perm`,
`sortStage_sorted` and `sortStage_filter` establish that the scored frame is
a permutation of its input, sorted by value score descending, with rows of
equal score kept in input order (pandas' double reversal around the stable
ascending argsort preserves tie order).  For larger frames the default
`kind='quicksort'` runs introsort, whose partition stage is not modelled
here and carries no tie-order guarantee, so the universal stability claim is
left unsettled rather than weakened to the modelled regime.
-/

/-- C4 (confirmed).  Enrichment is reproducible in its non-jitter fields:
two runs of `load_data` on the same input, with arbitrary (different) ambient
generator states standing for the two runs, produce identical raw-row,
amenity-density, safety-score and transit-distance projections for every
record, because `np.random.seed(42)` is executed after the jitter and before
the three simulated columns are drawn.  The coordinate jitter itself is not
reproducible: it is drawn from the unseeded ambient state, and two concrete
ambient states are exhibited on which `get_coords` assigns different
coordinates to the same area text. -/
theorem c4_enrichment_reproducible (rows : List RawRow) (g1 g2 : RState) :
    ((load_data (some rows) g1).1).map simProj =
      ((load_data (some rows) g2).1).map simProj ∧
    (get_coords "Koramangala Cross" ⟨0⟩).1 ≠
      (get_coords "Koramangala Cross" ⟨4503599627370496⟩).1 := by
  constructor
  · simp only [load_data]
    exact enrichEngine_simProj_eq _ g1 g2
  · simp only [get_coords, lookupLoc_koramangala]
    intro h
    simp only [Option.some.injEq, Prod.mk.injEq] at h
    have hlat := h.1
    norm_num [np_uniform, rngDen] at hlat

/-- C5 (confirmed).  For every row of the enrichment input: the area text
contains some `loc_map` key (case-insensitively) iff coordinate lookup
succeeds; on success the enriched set contains a row for it whose coordinates
are the first matching table entry's coordinates (`List.find?` returns the
first match in table iteration order) plus per-axis jitter of magnitude at
most 0.01 degrees; and on failure no enriched row stems from it. -/
theorem c5_coordinate_resolution (rows : List RawRow) (g : RState)
    (r : RawRow) (hr : r ∈ rows) :
    ((∃ kv ∈ loc_map, containsCI kv.1 r.areaLocality = true) ↔
        (lookupLoc r.areaLocality).isSome = true) ∧
    (∀ la lo : ℚ, lookupLoc r.areaLocality = some (la, lo) →
        ∃ e ∈ enrichEngine rows g, e.raw = r ∧
          ∃ j1 j2 : ℚ, |j1| ≤ 1 / 100 ∧ |j2| ≤ 1 / 100 ∧
            e.lat = la + j1 ∧ e.lon = lo + j2) ∧
    (lookupLoc r.areaLocality = none → ∀ e ∈ enrichEngine rows g, e.raw ≠ r) :=
  ⟨lookupLoc_isSome_iff _,
   fun la lo hl => enrichEngine_mem_of_geo rows g r la lo hr hl,
   fun hl e he => enrichEngine_absent rows g r hl e he⟩

/-- Witness for C5: the row with area text "Koramangala Cross" resolves to
the Koramangala table entry plus bounded jitter. -/
theorem c5_coordinate_resolution_witness :
    ∃ e ∈ enrichEngine [r0w] ⟨0⟩, e.raw = r0w ∧
      ∃ j1 j2 : ℚ, |j1| ≤ 1 / 100 ∧ |j2| ≤ 1 / 100 ∧
        e.lat = 12.9345 + j1 ∧ e.lon = 77.6186 + j2 :=
  (c5_coordinate_resolution [r0w] ⟨0⟩ r0w (by simp)).2.1 12.9345 77.6186
    lookupLoc_koramangala

/-- C6 (confirmed).  For positive price, nonnegative amenity density and
positive transit distance, the value score is non-decreasing in the amenity
weight, non-decreasing in the transit weight, and (for nonnegative weights,
as supplied by the 0.0-1.0 sliders) non-increasing in price. -/
theorem c6_value_score_monotone (c d p q w1 w2 u1 u2 : ℚ)
    (hc : 0 ≤ c) (hd : 0 < d) (hp : 0 < p) :
    (0 ≤ u1 → w1 ≤ w2 →
      Value_Score c d p w1 u1 ≤ Value_Score c d p w2 u1) ∧
    (u1 ≤ u2 → Value_Score c d p w1 u1 ≤ Value_Score c d p w1 u2) ∧
    (0 ≤ w1 → 0 ≤ u1 → 0 < q → p ≤ q →
      Value_Score c d q w1 u1 ≤ Value_Score c d p w1 u1) := by
  have hinv : (0:ℚ) ≤ 1 / d * 100 :=
    mul_nonneg (one_div_nonneg.mpr hd.le) (by norm_num)
  refine ⟨?_, ?_, ?_⟩
  · intro _ hw
    unfold Value_Score
    rw [div_le_div_iff₀ (div_pos hp (by norm_num)) (div_pos hp (by norm_num))]
    have h1 : c * w1 ≤ c * w2 := mul_le_mul_of_nonneg_left hw hc
    have h2 : c * w1 + 1 / d * 100 * u1 ≤ c * w2 + 1 / d * 100 * u1 := by
      linarith
    exact mul_le_mul_of_nonneg_right h2 (div_pos hp (by norm_num)).le
  · intro hu
    unfold Value_Score
    rw [div_le_div_iff₀ (div_pos hp (by norm_num)) (div_pos hp (by norm_num))]
    have h1 : 1 / d * 100 * u1 ≤ 1 / d * 100 * u2 :=
      mul_le_mul_of_nonneg_left hu hinv
    have h2 : c * w1 + 1 / d * 100 * u1 ≤ c * w1 + 1 / d * 100 * u2 := by
      linarith
    exact mul_le_mul_of_nonneg_right h2 (div_pos hp (by norm_num)).le
  · intro hw hu hq hpq
    unfold Value_Score
    rw [div_le_div_iff₀ (div_pos hq (by norm_num)) (div_pos hp (by norm_num))]
    have hN : (0:ℚ) ≤ c * w1 + 1 / d * 100 * u1 :=
      add_nonneg (mul_nonneg hc hw) (mul_nonneg hinv hu)
    have hdiv : p / 1000 ≤ q / 1000 := by linarith
    exact mul_le_mul_of_nonneg_left hdiv hN

/-- Witness for C6 at the spec's scenario numbers: raising the amenity weight
from 0.5 to 0.75, raising the transit weight from 0.8 to 0.9, and raising the
price from 30000 to 40000. -/
theorem c6_value_score_monotone_witness :
    (Value_Score 20 2 30000 (1/2) (4/5) ≤ Value_Score 20 2 30000 (3/4) (4/5)) ∧
    (Value_Score 20 2 30000 (1/2) (4/5) ≤
      Value_Score 20 2 30000 (1/2) (9/10)) ∧
    Value_Score 20 2 40000 (1/2) (4/5) ≤ Value_Score 20 2 30000 (1/2) (4/5) := by
  have h := c6_value_score_monotone 20 2 30000 40000 (1/2) (3/4) (4/5) (9/10)
    (by norm_num) (by norm_num) (by norm_num)
  exact ⟨h.1 (by norm_num) (by norm_num), h.2.1 (by norm_num),
    h.2.2 (by norm_num) (by norm_num) (by norm_num) (by norm_num)⟩

/-- C7 counterexample.  With the input file absent, the script does render UI
beyond the error message before halting: the page config, the page title and
the introductory markdown (lines 70-73 of `src/app.py`) are all emitted after
the error and before `st.stop()`, so the event log is not just the error
message. -/
theorem c7_ui_after_error :
    (runApp none ⟨0⟩ 35000 7 (1/2) (4/5)).events =
      [UIEvent.errorMissingFile, UIEvent.pageConfig, UIEvent.title,
       UIEvent.markdownIntro] ∧
    (runApp none ⟨0⟩ 35000 7 (1/2) (4/5)).events ≠
      [UIEvent.errorMissingFile] :=
  ⟨rfl, by decide⟩

/-- C7 (corrected).  When the input file is absent the loader shows the
missing-file error and returns an empty result set, `st.stop()` is reached,
and the preference filter and value scorer are never invoked; however the
page title and introductory markdown are still rendered after the error
message (only the sidebar, metrics, charts and table are suppressed). -/
theorem c7_missing_file_halts (g : RState)
    (budget min_safety w_cafe w_metro : ℚ) :
    runApp none g budget min_safety w_cafe w_metro =
      ⟨[UIEvent.errorMissingFile, UIEvent.pageConfig, UIEvent.title,
        UIEvent.markdownIntro], false, false, true, []⟩ := rfl

/-- C8 counterexample.  At transit distance 0 the scorer applies no policy:
evaluated in float semantics the formula silently yields the infinity
produced by the division `1 / 0.0` (numpy emits only a warning), i.e. a
non-finite score rather than any defined finite value or exclusion. -/
theorem c8_zero_distance_inf :
    valueScoreF (.fin 20) (.fin 0) (.fin 30000) (.fin (1/2)) (.fin (4/5)) =
      .pinf ∧
    (valueScoreF (.fin 20) (.fin 0) (.fin 30000) (.fin (1/2))
        (.fin (4/5))).isFinite = false := by
  constructor
  · norm_num [valueScoreF, PVal.div, PVal.mul, PVal.add]
  · norm_num [valueScoreF, PVal.div, PVal.mul, PVal.add, PVal.isFinite]

/-- C8 (corrected).  The scorer itself has no policy for zero transit
distance (see the counterexample: it silently propagates an infinity), but
every record produced by enrichment has simulated transit distance at least
0.5 km, and for any nonzero distance and nonzero price the float evaluation
of the formula agrees with the exact rational value score — so within the
pipeline the division `1 / transit_distance_km` is never a division by zero
and every computed score is finite. -/
theorem c8_pipeline_distance_safe (rows : List RawRow) (g : RState) :
    (∀ e ∈ enrichEngine rows g, 0.5 ≤ e.metro ∧ e.metro < 10.0) ∧
    (∀ c d p w1 u1 : ℚ, d ≠ 0 → p ≠ 0 →
      valueScoreF (.fin c) (.fin d) (.fin p) (.fin w1) (.fin u1) =
        .fin (Value_Score c d p w1 u1)) :=
  ⟨fun e he => (enrichEngine_mem_bounds rows g e he).2.2,
   fun c d p w1 u1 hd hp => valueScoreF_fin c d p w1 u1 hd hp⟩

/-- Witness for C8: a concrete enriched row has transit distance in
[0.5, 10), and the float scorer at the spec's scenario values agrees with the
rational formula. -/
theorem c8_pipeline_distance_safe_witness :
    (∃ e, e ∈ enrichEngine [r0w] ⟨0⟩ ∧ 0.5 ≤ e.metro ∧ e.metro < 10.0) ∧
    valueScoreF (.fin 20) (.fin 2) (.fin 30000) (.fin (1/2)) (.fin (4/5)) =
      .fin (Value_Score 20 2 30000 (1/2) (4/5)) := by
  obtain ⟨e, he, -⟩ := enrichEngine_mem_of_geo [r0w] ⟨0⟩ r0w 12.9345 77.6186
    (by simp) lookupLoc_koramangala
  exact ⟨⟨e, he, (c8_pipeline_distance_safe [r0w] ⟨0⟩).1 e he⟩,
    (c8_pipeline_distance_safe [r0w] ⟨0⟩).2 20 2 30000 (1/2) (4/5)
      (by norm_num) (by norm_num)⟩

/-- C9 counterexample.  The offset 30 is not a possible value of the draw:
`np.random.randint(5, 30)` has an exclusive upper bound, so no generator
state yields 30 — the claim that "every integer in [5, 30] is a possible
offset" is false. -/
theorem c9_offset_30_impossible :
    ¬ ∃ s : RState, (np_randint 5 30 s).1 = 30 := by
  rintro ⟨s, hs⟩
  simp only [np_randint] at hs
  rw [show ((30:ℤ) - 5).toNat = 25 from rfl] at hs
  omega

/-- C9 (corrected).  For every enriched record, amenity density minus
price / 1500 is an integer offset n with 5 ≤ n ≤ 29 (`randint(5, 30)` has an
exclusive upper bound, so 30 itself is unreachable — see the
counterexample), and every integer in [5, 29] is a possible draw. -/
theorem c9_cafes_offset (rows : List RawRow) (g : RState) :
    (∀ e ∈ enrichEngine rows g, ∃ n : ℤ,
      e.cafes - e.raw.rent / 1500 = (n : ℚ) ∧ 5 ≤ n ∧ n ≤ 29) ∧
    (∀ k : ℤ, 5 ≤ k → k ≤ 29 → ∃ s : RState, (np_randint 5 30 s).1 = k) := by
  constructor
  · intro e he
    obtain ⟨⟨o, h5, h29, hc⟩, -, -⟩ := enrichEngine_mem_bounds rows g e he
    refine ⟨o, ?_, h5, h29⟩
    rw [hc]
    ring
  · intro k h5 h29
    refine ⟨⟨(k - 5).toNat⟩, ?_⟩
    show (5 : ℤ) + (((k - 5).toNat % ((30:ℤ) - 5).toNat : ℕ) : ℤ) = k
    rw [show ((30:ℤ) - 5).toNat = 25 from rfl]
    omega

/-- Witness for C9: a concrete enriched row has an integral offset in
[5, 29], and 29 itself is a reachable draw. -/
theorem c9_cafes_offset_witness :
    (∃ e, e ∈ enrichEngine [r0w] ⟨0⟩ ∧ ∃ n : ℤ,
      e.cafes - e.raw.rent / 1500 = (n : ℚ) ∧ 5 ≤ n ∧ n ≤ 29) ∧
    ∃ s : RState, (np_randint 5 30 s).1 = 29 := by
  obtain ⟨e, he, -⟩ := enrichEngine_mem_of_geo [r0w] ⟨0⟩ r0w 12.9345 77.6186
    (by simp) lookupLoc_koramangala
  exact ⟨⟨e, he, (c9_cafes_offset [r0w] ⟨0⟩).1 e he⟩,
    (c9_cafes_offset [r0w] ⟨0⟩).2 29 (by norm_num) (by norm_num)⟩

/-- C10 (confirmed).  Every enriched record's safety score lies in
[6.5, 9.8]; consequently for every threshold t ≤ 6.5 the safety condition
excludes nothing and the preference filter degenerates to the budget
condition alone. -/
theorem c10_safety_floor (rows : List RawRow) (g : RState)
    (budget t : ℚ) (ht : t ≤ 6.5) :
    (∀ e ∈ enrichEngine rows g, 6.5 ≤ e.safety ∧ e.safety ≤ 9.8) ∧
    filterStage (enrichEngine rows g) budget t =
      (enrichEngine rows g).filter (fun e => decide (e.raw.rent ≤ budget)) := by
  constructor
  · intro e he
    have h := (enrichEngine_mem_bounds rows g e he).2.1
    exact ⟨h.1, h.2.le⟩
  · unfold filterStage
    apply List.filter_congr
    intro e he
    have h := (enrichEngine_mem_bounds rows g e he).2.1
    have hts : t ≤ e.safety := le_trans ht h.1
    simp [hts]

/-- Witness for C10: a concrete enriched row has safety in [6.5, 9.8], and
at threshold 6 (below 6.5) the filter coincides with the pure budget
filter. -/
theorem c10_safety_floor_witness :
    (∃ e, e ∈ enrichEngine [r0w] ⟨0⟩ ∧ 6.5 ≤ e.safety ∧ e.safety ≤ 9.8) ∧
    filterStage (enrichEngine [r0w] ⟨0⟩) 100000 6 =
      (enrichEngine [r0w] ⟨0⟩).filter
        (fun e => decide (e.raw.rent ≤ 100000)) := by
  obtain ⟨e, he, -⟩ := enrichEngine_mem_of_geo [r0w] ⟨0⟩ r0w 12.9345 77.6186
    (by simp) lookupLoc_koramangala
  have h := c10_safety_floor [r0w] ⟨0⟩ 100000 6 (by norm_num)
  exact ⟨⟨e, he, h.1 e he⟩, h.2⟩
